import Mathlib

/-!
Shallow embedding of the header-detection / column-mapping / validation
engine of `src/app_streamlit.py` (CMI quotation platform), together with
theorems settling the frozen claims about it.

Modelling conventions:
* a spreadsheet cell is `Option String`: `none` is pandas `NaN`, and a
  non-null cell is taken after Python's `str(...)` conversion;
* Python `str.strip` / `str.lower` are modelled per character with
  `Char.isWhitespace` / `Char.toLower` (the alias table and all labels the
  code compares against are ASCII plus CJK, where the two agree with Python);
* Python's float literals `0.5` and `0.3` are modelled as the exact
  rationals `1/2` and `3/10` (the two comparisons agree on every
  ratio `m / n` of counts unless `n` exceeds `10^15`, far beyond any
  spreadsheet width);
* `dict` iteration order is insertion order (Python ≥ 3.7), so the synonym
  table is an association list in source order.
-/

/-- A spreadsheet cell: `none` models pandas `NaN`. -/
abbrev Cell := Option String

/-- Python `str.lower`, per character (ASCII case folding; CJK unchanged). -/
def pyLower (s : String) : String := ⟨s.data.map Char.toLower⟩

/-- Python `str.strip`: drop whitespace from both ends. -/
def pyStrip (s : String) : String :=
  ⟨(((s.data.dropWhile Char.isWhitespace).reverse.dropWhile Char.isWhitespace).reverse)⟩

/-- Does `needle` start `hay`?  Models Python `hay.startswith(needle)`. -/
def startsWithL : List Char → List Char → Bool
  | [], _ => true
  | _ :: _, [] => false
  | a :: as, b :: bs => a == b && startsWithL as bs

/-- Python's substring test `needle in hay` on character lists.
Note `startsWithL [] _ = true`, so the empty list is contained in
everything, exactly as in Python. -/
def containsL (needle : List Char) : List Char → Bool
  | [] => needle.isEmpty
  | c :: t => startsWithL needle (c :: t) || containsL needle t

/-- Python `a in b` on strings. -/
def pyIn (a b : String) : Bool := containsL a.data b.data

/-- The characters collapsed by the code's
`re.sub(r"[\s\-\_：:（）()]+", " ", …)` normalization. -/
def isSepChar (c : Char) : Bool :=
  c.isWhitespace || c == '-' || c == '_' || c == '：' || c == ':' ||
  c == '（' || c == '）' || c == '(' || c == ')'

/-- Collapse adjacent duplicate spaces (used after mapping every separator
to a space, which together model replacing each separator run by one space). -/
def squeezeSpaces : List Char → List Char
  | [] => []
  | [c] => [c]
  | a :: b :: rest =>
      if a == ' ' && b == ' ' then squeezeSpaces (b :: rest)
      else a :: squeezeSpaces (b :: rest)

/-- `re.sub(r"[\s\-\_：:（）()]+", " ", h).strip()` from `auto_map_header`. -/
def normKey (s : String) : String :=
  pyStrip ⟨squeezeSpaces (s.data.map (fun c => if isSepChar c then ' ' else c))⟩

/-- `HEADER_SYNONYMS` from the source, as an association list in the
dict's insertion order (alias, canonical field). -/
def HEADER_SYNONYMS : List (String × String) :=
  [("序号", "序号"), ("no", "序号"), ("index", "序号"),
   ("设备材料名称", "设备材料名称"), ("设备名称", "设备材料名称"),
   ("material", "设备材料名称"), ("name", "设备材料名称"),
   ("规格或型号", "规格或型号"), ("规格", "规格或型号"),
   ("model", "规格或型号"), ("spec", "规格或型号"),
   ("描述", "描述"), ("description", "描述"),
   ("品牌", "品牌"), ("brand", "品牌"),
   ("单位", "单位"), ("unit", "单位"),
   ("数量确认", "数量确认"), ("数量", "数量确认"),
   ("qty", "数量确认"), ("quantity", "数量确认"),
   ("报价品牌", "报价品牌"), ("报价", "报价品牌"),
   ("型号", "型号"),
   ("设备单价", "设备单价"), ("单价", "设备单价"), ("price", "设备单价"),
   ("设备小计", "设备小计"), ("subtotal", "设备小计"),
   ("币种", "币种"), ("currency", "币种"),
   ("询价人", "询价人"), ("项目名称", "项目名称"),
   ("供应商名称", "供应商名称"), ("询价日期", "询价日期"),
   ("录入人", "录入人"), ("地区", "地区")]

/-- Tier 1 of `auto_map_header`: exact case-insensitive raw match
(`h == k.lower()`, first hit in table order). -/
def resolveTier1 (h : String) : Option String :=
  (HEADER_SYNONYMS.find? (fun kv => h == pyLower kv.1)).map (·.2)

/-- Tier 2 of `auto_map_header`: exact match of the normalized label
against the normalized alias. -/
def resolveTier2 (h : String) : Option String :=
  (HEADER_SYNONYMS.find? (fun kv => normKey h == normKey (pyLower kv.1))).map (·.2)

/-- Tier 3 of `auto_map_header`: substring match in either direction on
raw lower-cased forms (`k.lower() in h or h in k.lower()`), first alias in
table iteration order winning. -/
def resolveTier3 (h : String) : Option String :=
  (HEADER_SYNONYMS.find? (fun kv => pyIn (pyLower kv.1) h || pyIn h (pyLower kv.1))).map (·.2)

/-- `auto_map_header` from the source: `None` input short-circuits, the
label is stripped and lower-cased, then the three matching loops run in
order; `None` when no loop matches. -/
def auto_map_header (orig : Option String) : Option String :=
  match orig with
  | none => none
  | some s =>
    let h := pyLower (pyStrip s)
    match resolveTier1 h with
    | some v => some v
    | none =>
      match resolveTier2 h with
      | some v => some v
      | none => resolveTier3 h

/-- A token character for the spec's tier-4 token match: an alphabetic
character or a CJK unified ideograph. -/
def isTokChar (c : Char) : Bool :=
  c.isAlpha || (0x4E00 ≤ c.toNat && c.toNat ≤ 0x9FFF)

/-- Split a character list into its maximal runs of token characters
(`acc` holds the current run, reversed). -/
def tokensAux : List Char → List Char → List (List Char)
  | [], acc => if acc.isEmpty then [] else [acc.reverse]
  | c :: cs, acc =>
      if isTokChar c then tokensAux cs (c :: acc)
      else if acc.isEmpty then tokensAux cs []
      else acc.reverse :: tokensAux cs []

/-- The alphabetic/CJK token runs of a label. -/
def tokensOf (l : List Char) : List (List Char) := tokensAux l []

/-- Modelled from the spec: tier 4 of the resolver described in §4.2,
"split the label into alphabetic/CJK-character runs; if any token exactly
equals an alias, return its canonical field" (no such tier exists as
separate code in `auto_map_header`; it is stated here to be compared with
the source's three-tier resolver). -/
def resolveTier4 (h : String) : Option String :=
  (HEADER_SYNONYMS.find?
    (fun kv => (tokensOf h.data).any (fun t => t == (pyLower kv.1).data))).map (·.2)

/-- Modelled from the spec: the four-tier resolver of spec §4.2, i.e. the
source's three tiers followed by the token-match tier, first hit winning. -/
def resolveSpec (orig : Option String) : Option String :=
  match orig with
  | none => none
  | some s =>
    let h := pyLower (pyStrip s)
    match resolveTier1 h with
    | some v => some v
    | none =>
      match resolveTier2 h with
      | some v => some v
      | none =>
        match resolveTier3 h with
        | some v => some v
        | none => resolveTier4 h

/-- A raw grid: rows of cells, as handed to `detect_header_from_preview`
(`pd.read_excel(..., header=None, dtype=object)` yields a rectangular
frame; out-of-range access in a ragged list is read as `NaN`). -/
abbrev Grid := List (List Cell)

/-- `df_preview.shape[0]`. -/
def gridRows (g : Grid) : Nat := g.length

/-- `df_preview.shape[1]` (for the rectangular frames pandas produces this
is every row's length; rows are padded with `NaN` on read). -/
def gridCols (g : Grid) : Nat := (g.map List.length).foldr max 0

/-- `df_preview.iat[r, col]`. -/
def cellAt (g : Grid) (r c : Nat) : Cell := (((g.get? r).getD []).get? c).getD none

/-- One column's header text over a candidate span: the non-blank stripped
stringified cells of rows `start .. start+rowsUsed-1`, space-joined and
stripped (`" ".join(parts).strip()`). -/
def buildLabel (g : Grid) (start rowsUsed col : Nat) : String :=
  let parts := (List.range rowsUsed).filterMap (fun i =>
    match cellAt g (start + i) col with
    | none => none
    | some s => let t := pyStrip s; if t == "" then none else some t)
  pyStrip (String.intercalate " " parts)

/-- A header candidate: the label list of a span together with the span
position and the two counters the code accumulates. -/
structure Cand where
  header : List String
  row : Nat
  rowsUsed : Nat
  mapped : Nat
  nonempty : Nat
deriving DecidableEq, Repr

/-- Build the candidate for span `[start, start+rowsUsed)`: per column the
joined label, counting non-blank labels and labels that `auto_map_header`
resolves (`if header_text and auto_map_header(header_text)`). -/
def mkCand (g : Grid) (start rowsUsed : Nat) : Cand :=
  let labels := (List.range (gridCols g)).map (buildLabel g start rowsUsed)
  { header := labels
    row := start
    rowsUsed := rowsUsed
    mapped := (labels.filter
      (fun l => l != "" && (auto_map_header (some l)).isSome)).length
    nonempty := (labels.filter (fun l => l != "")).length }

/-- The `(start, rows_used)` pairs visited by the two nested loops, in loop
order: `start` in `range(min(max_search_rows, nrows))`, `rows_used` in
`range(1, max_header_rows + 1)`, skipping spans that overrun the grid. -/
def candPairs (nrows maxH maxS : Nat) : List (Nat × Nat) :=
  (List.range (min maxS nrows)).flatMap (fun start =>
    ((List.range maxH).map (· + 1)).filterMap (fun ru =>
      if start + ru ≤ nrows then some (start, ru) else none))

/-- All candidates scored by the detector, in loop order. -/
def candList (g : Grid) (maxH maxS : Nat) : List Cand :=
  (candPairs (gridRows g) maxH maxS).map (fun p => mkCand g p.1 p.2)

/-- `score = mapped + 0.5 * nonempty`, as an exact rational. -/
def score (c : Cand) : ℚ := (c.mapped : ℚ) + (1 / 2 : ℚ) * (c.nonempty : ℚ)

/-- The running best's score; the detector starts from `{"score": -1}`
with no header, modelled as `none`. -/
def bestScore : Option Cand → ℚ
  | none => -1
  | some c => score c

/-- One loop step: `if score > best["score"]: best = …` (a later candidate
replaces the best only by strictly exceeding its score). -/
def stepBest (b : Option Cand) (c : Cand) : Option Cand :=
  if bestScore b < score c then some c else b

/-- The best candidate after scanning all spans. -/
def bestCand (g : Grid) (maxH maxS : Nat) : Option Cand :=
  (candList g maxH maxS).foldl stepBest none

/-- The acceptance gate on the best candidate:
`best["mapped"] >= 2 or (best["nonempty"] > 0 and best["mapped"] / best["nonempty"] >= 0.3)`. -/
def acceptGate (c : Cand) : Prop :=
  2 ≤ c.mapped ∨ (0 < c.nonempty ∧ (3 / 10 : ℚ) ≤ (c.mapped : ℚ) / (c.nonempty : ℚ))

instance (c : Cand) : Decidable (acceptGate c) := by
  unfold acceptGate; infer_instance

/-- `detect_header_from_preview`: `(None, None)` for an empty grid, else
scan all spans, keep the best, and accept it only through the gate,
returning its labels and the absolute index of the last row of its span. -/
def detect_header_from_preview (g : Grid) (maxH maxS : Nat) :
    Option (List String × Nat) :=
  if gridRows g = 0 then none
  else
    match bestCand g maxH maxS with
    | none => none
    | some b =>
      if acceptGate b then some (b.header, b.row + b.rowsUsed - 1) else none

/-- `DB_COLUMNS` from the source: the canonical fields in storage order. -/
def DB_COLUMNS : List String :=
  ["序号", "设备材料名称", "规格或型号", "描述", "品牌", "单位", "数量确认",
   "报价品牌", "型号", "设备单价", "设备小计", "人工包干单价", "人工包干小计",
   "综合单价汇总", "币种", "原厂品牌维保期限", "货期", "备注",
   "询价人", "项目名称", "供应商名称", "询价日期", "录入人", "地区"]

/-- A staged row: one cell per canonical field, in `DB_COLUMNS` order. -/
abbrev RowV := List Cell

/-- Read a row's cell for a canonical field (`row["项目名称"]` etc.). -/
def getCol (r : RowV) (c : String) : Cell :=
  (r.get? (DB_COLUMNS.indexOf c)).getD none

/-- Write a row's cell for a canonical field (`df.loc[mask, col] = value`
row-wise). -/
def setCol (r : RowV) (c : String) (v : Cell) : RowV :=
  r.set (DB_COLUMNS.indexOf c) v

/-- `normalize_cell` from the validation step: `NaN`, and strings whose
stripped lower-cased form is `""`/`"nan"`/`"none"`, become `None`;
otherwise the stripped string. -/
def normalize_cell (x : Cell) : Option String :=
  match x with
  | none => none
  | some s =>
    let t := pyStrip s
    if pyLower t == "" || pyLower t == "nan" || pyLower t == "none" then none
    else some t

/-- `is_empty_cell` from the global-fill step: `NaN`, or stripped to `""`,
or stripped-lower-cased to `"nan"`/`"none"`. -/
def is_empty_cell (x : Cell) : Bool :=
  match x with
  | none => true
  | some s =>
    let t := pyStrip s
    t == "" || pyLower t == "nan" || pyLower t == "none"

/-- `fill_empty` applied to one row: write the global value into the
field's cell only when that cell is empty. -/
def fillCell (c : String) (v : String) (r : RowV) : RowV :=
  if is_empty_cell (getCol r c) then setCol r c (some v) else r

/-- `fill_empty(col_name, value)`: fill the empty cells of one column of
the staged table with the global value. -/
def fill_empty (rows : List RowV) (c : String) (v : String) : List RowV :=
  rows.map (fillCell c v)

/-- The always-filled global fields paired with their values, followed by
the conditional currency fill (`if need_global_currency and g["currency"]`),
in the call order of the source. -/
def globalPairs (needCurrency : Bool) (project supplier enquirer dateStr currency : String) :
    List (String × String) :=
  [("项目名称", project), ("供应商名称", supplier), ("询价人", enquirer),
   ("询价日期", dateStr)] ++
  (if needCurrency && currency != "" then [("币种", currency)] else [])

/-- The sequence of `fill_empty` calls of the import flow. -/
def applyGlobals (needCurrency : Bool)
    (project supplier enquirer dateStr currency : String)
    (rows : List RowV) : List RowV :=
  (globalPairs needCurrency project supplier enquirer dateStr currency).foldl
    (fun rs p => fill_empty rs p.1 p.2) rows

/-- `column_has_empty_currency`: some staged row has an empty currency. -/
def need_global_currency (rows : List RowV) : Bool :=
  rows.any (fun r => is_empty_cell (getCol r "币种"))

/-- `required_nonprice` from the source (brand is NOT in the list). -/
def required_nonprice : List String :=
  ["项目名称", "供应商名称", "询价人", "设备材料名称", "币种", "询价日期"]

/-- `missing_nonprice` for one row: some required non-price field
normalizes to `None`. -/
def missing_nonprice (r : RowV) : Bool :=
  required_nonprice.any (fun c => (normalize_cell (getCol r c)).isNone)

/-- `price_has_value`: at least one of unit price / labor unit price is
non-empty after normalization. -/
def price_has_value (r : RowV) : Bool :=
  (normalize_cell (getCol r "设备单价")).isSome ||
  (normalize_cell (getCol r "人工包干单价")).isSome

/-- `rows_invalid_mask` for one row: `missing_nonprice | ~price_mask`. -/
def rowInvalid (r : RowV) : Bool := missing_nonprice r || !price_has_value r

/-- A row passes the validation step (`~rows_invalid_mask`). -/
def rowAccepted (r : RowV) : Bool := !rowInvalid r

/-- `df_valid, df_invalid = df_final[~mask], df_final[mask]`: the
validation partition; rejected rows are kept verbatim, in order. -/
def validPartition (rows : List RowV) : List RowV × List RowV :=
  (rows.filter rowAccepted, rows.filter (fun r => !rowAccepted r))

/-- A fully-empty row, dropped by `dropna(how="all")`. -/
def isFullyEmptyRow (r : RowV) : Bool := r.all (·.isNone)

/-- Deduplication with an accumulator of already-seen elements. -/
def dropDupAux {α : Type} [DecidableEq α] : List α → List α → List α
  | [], _ => []
  | x :: xs, seen =>
      if seen.contains x then dropDupAux xs seen
      else x :: dropDupAux xs (x :: seen)

/-- `drop_duplicates()`: collapse exact-duplicate rows, keeping the first
occurrence of each. -/
def dropDupFirst {α : Type} [DecidableEq α] (l : List α) : List α :=
  dropDupAux l []

/-- The commit step's final check on `df_to_store`: the item name
normalizes to a value and at least one price field does
(`final_check` / `final_price_ok`). -/
def finalOkRow (r : RowV) : Bool :=
  (normalize_cell (getCol r "设备材料名称")).isSome && price_has_value r

/-- The commit step (`df_to_store … to_sql append`): skip when `df_valid`
is empty; else drop fully-empty rows, collapse duplicates, re-check, and
append the importable subset to the store in one operation.  When the
final check flags nothing the whole `df_to_store` is appended — which is
the same list as the filtered one in every case. -/
def importBatch (store : List RowV) (df_valid : List RowV) : List RowV :=
  if df_valid.isEmpty then store
  else
    let df_to_store := dropDupFirst (df_valid.filter (fun r => !isFullyEmptyRow r))
    let to_import := df_to_store.filter finalOkRow
    let still_bad := df_to_store.filter (fun r => !finalOkRow r)
    if still_bad.isEmpty then store ++ df_to_store else store ++ to_import

/-- `mapping_targets`: the user-selectable targets — `"Ignore"` plus every
canonical field except the caller-injected identity and region. -/
def mapping_targets : List String :=
  "Ignore" :: DB_COLUMNS.filter (fun c => !(c == "录入人" || c == "地区"))

/-- `auto_defaults[col]`: the suggested target for a source label — the
resolver's answer when it lies in the allowed target set, else `"Ignore"`. -/
def autoDefault (label : String) : String :=
  match auto_map_header (some label) with
  | some v => if mapping_targets.contains v then v else "Ignore"
  | none => "Ignore"

/-- A source table: the uploaded sheet's columns as
(source label, column cells) in sheet order. -/
abbrev SourceTable := List (String × List Cell)

/-- The user's confirmed choices: (source label, chosen target) per source
column, `"Ignore"` meaning unmapped. -/
abbrev Choices := List (String × String)

/-- `target_sources`: group the non-`"Ignore"` choices as
target ↦ list of assigned source labels (first-seen target order). -/
def target_sources (choices : Choices) : List (String × List String) :=
  (dropDupFirst ((choices.filter (fun p => p.2 != "Ignore")).map (·.2))).map
    (fun t => (t, ((choices.filter (fun p => p.2 == t)).map (·.1))))

/-- The duplicate-target groups: canonical fields assigned more than one
source label. -/
def dupTargets (choices : Choices) : List (String × List String) :=
  (target_sources choices).filter (fun p => 2 ≤ p.2.length)

/-- `rename_dict` applied to one source label: its chosen non-`"Ignore"`
target, else the label itself. -/
def renameLabel (choices : Choices) (l : String) : String :=
  match choices.find? (fun p => p.1 == l) with
  | some p => if p.2 == "Ignore" then l else p.2
  | none => l

/-- Row `i` of the staged table `df_for_db`: for each canonical field the
value of the first source column renamed to it (with duplicate targets the
CSV round-trip keeps the first occurrence and mangles the rest, so the
first assigned source column wins), `NaN` when no column maps to it, and
the caller's username and region overwriting `录入人` and `地区`
unconditionally. -/
def stagedRowI (cols : SourceTable) (choices : Choices)
    (username region : String) (i : Nat) : RowV :=
  DB_COLUMNS.map (fun c =>
    if c == "录入人" then some username
    else if c == "地区" then some region
    else
      match cols.find? (fun p => renameLabel choices p.1 == c) with
      | some p => (p.2.get? i).getD none
      | none => none)

/-- The staged table produced by confirming a mapping over `n` data rows:
the submit handler builds it and stores it unconditionally — there is no
failure branch. -/
def stagedTable (cols : SourceTable) (choices : Choices)
    (username region : String) (n : Nat) : List RowV :=
  (List.range n).map (stagedRowI cols choices username region)

lemma startsWithL_iff (a : List Char) : ∀ b, startsWithL a b = true ↔ ∃ u, b = a ++ u := by
  induction a with
  | nil => intro b; simp [startsWithL]
  | cons x xs ih =>
    intro b
    cases b with
    | nil => simp [startsWithL]
    | cons y ys =>
      simp only [startsWithL, Bool.and_eq_true, beq_iff_eq, ih ys, List.cons_append]
      constructor
      · rintro ⟨rfl, u, rfl⟩; exact ⟨u, rfl⟩
      · rintro ⟨u, h⟩
        injection h with h1 h2
        exact ⟨h1.symm, u, h2⟩

lemma containsL_iff (a : List Char) : ∀ b, containsL a b = true ↔ ∃ s u, b = s ++ a ++ u := by
  intro b
  induction b with
  | nil =>
    simp only [containsL, List.isEmpty_iff]
    constructor
    · rintro rfl; exact ⟨[], [], rfl⟩
    · rintro ⟨s, u, h⟩
      rcases List.append_eq_nil.mp h.symm with ⟨hs, hu⟩
      rcases List.append_eq_nil.mp hs with ⟨hs', ha⟩
      exact ha
  | cons c t ih =>
    simp only [containsL, Bool.or_eq_true, startsWithL_iff, ih]
    constructor
    · rintro (⟨u, h⟩ | ⟨s, u, h⟩)
      · exact ⟨[], u, by simpa using h⟩
      · exact ⟨c :: s, u, by simp [h]⟩
    · rintro ⟨s, u, h⟩
      cases s with
      | nil => exact Or.inl ⟨u, by simpa using h⟩
      | cons s0 st =>
        injection h with h1 h2
        exact Or.inr ⟨st, u, h2⟩

lemma tokensAux_sub : ∀ (l acc t : List Char), t ∈ tokensAux l acc →
    ∃ s u, acc.reverse ++ l = s ++ t ++ u := by
  intro l
  induction l with
  | nil =>
    intro acc t ht
    by_cases h : acc.isEmpty
    · simp [tokensAux, h] at ht
    · simp only [tokensAux, h, Bool.false_eq_true, if_false, List.mem_singleton] at ht
      subst ht
      exact ⟨[], [], by simp⟩
  | cons c cs ih =>
    intro acc t ht
    simp only [tokensAux] at ht
    by_cases h1 : isTokChar c
    · rw [if_pos h1] at ht
      obtain ⟨s, u, hsu⟩ := ih (c :: acc) t ht
      refine ⟨s, u, ?_⟩
      rw [List.reverse_cons, List.append_assoc] at hsu
      simpa using hsu
    · rw [if_neg h1] at ht
      by_cases h2 : acc.isEmpty
      · rw [if_pos h2] at ht
        have hacc : acc = [] := List.isEmpty_iff.mp h2
        obtain ⟨s, u, hsu⟩ := ih [] t ht
        subst hacc
        simp only [List.reverse_nil, List.nil_append] at hsu ⊢
        exact ⟨c :: s, u, by simp [hsu]⟩
      · rw [if_neg h2] at ht
        rcases List.mem_cons.mp ht with rfl | ht'
        · exact ⟨[], c :: cs, by simp⟩
        · obtain ⟨s, u, hsu⟩ := ih [] t ht'
          simp only [List.reverse_nil, List.nil_append] at hsu
          refine ⟨acc.reverse ++ (c :: s), u, ?_⟩
          simp [hsu, List.append_assoc]

lemma token_contains (l t : List Char) (h : t ∈ tokensOf l) : containsL t l = true := by
  obtain ⟨s, u, hsu⟩ := tokensAux_sub l [] t h
  exact (containsL_iff t l).mpr ⟨s, u, by simpa using hsu⟩

/-- The key fact behind the tier equivalence: a token of the label is a
substring of the label, so whenever the token tier would fire, the
substring tier has already fired; with no substring match there is no
token match either. -/
lemma tier4_none_of_tier3_none (h : String) (h3 : resolveTier3 h = none) :
    resolveTier4 h = none := by
  have hf3 : HEADER_SYNONYMS.find?
      (fun kv => pyIn (pyLower kv.1) h || pyIn h (pyLower kv.1)) = none := by
    rcases hf : HEADER_SYNONYMS.find?
        (fun kv => pyIn (pyLower kv.1) h || pyIn h (pyLower kv.1)) with _ | kv
    · exact hf
    · rw [resolveTier3, hf] at h3; simp at h3
  rcases hf4 : HEADER_SYNONYMS.find?
      (fun kv => (tokensOf h.data).any (fun t => t == (pyLower kv.1).data)) with _ | kv
  · rw [resolveTier4, hf4]; rfl
  · exfalso
    have hmem := List.mem_of_find?_eq_some hf4
    have hpred := List.find?_some hf4
    rw [List.any_eq_true] at hpred
    obtain ⟨t, ht, htb⟩ := hpred
    have ht' : t = (pyLower kv.1).data := eq_of_beq htb
    subst ht'
    have hin : pyIn (pyLower kv.1) h = true := token_contains h.data _ ht
    have := List.find?_eq_none.mp hf3 kv hmem
    rw [hin] at this
    simp at this

/-- C2: the header resolver applies the four matching tiers of spec §4.2
in priority order, returning the first tier's result and `None` when no
tier matches.  The source's `auto_map_header` writes out only three loops;
the theorem shows the four-tier resolver written from the spec's words is
extensionally equal to it (the token tier can never fire when the
substring tier has not), and that a tier-1 match decides the result
regardless of the later tiers. -/
theorem C2_resolver_tiers :
    (∀ o : Option String, resolveSpec o = auto_map_header o) ∧
    (∀ s v, resolveTier1 (pyLower (pyStrip s)) = some v →
      auto_map_header (some s) = some v) := by
  constructor
  · intro o
    cases o with
    | none => rfl
    | some s =>
      simp only [resolveSpec, auto_map_header]
      cases h1 : resolveTier1 (pyLower (pyStrip s))
      · cases h2 : resolveTier2 (pyLower (pyStrip s))
        · cases h3 : resolveTier3 (pyLower (pyStrip s))
          · rw [tier4_none_of_tier3_none _ h3]
          · rfl
        · rfl
      · rfl
  · intro s v h1
    simp only [auto_map_header, h1]

/-- Witness for C2's second part at a concrete label: `"Price"` hits
tier 1 on the alias `price` and the resolver returns its field. -/
theorem C2_resolver_tiers_witness :
    resolveTier1 (pyLower (pyStrip "Price")) = some "设备单价" ∧
    auto_map_header (some "Price") = some "设备单价" :=
  ⟨by decide, C2_resolver_tiers.2 "Price" "设备单价" (by decide)⟩

/-- C5 (code bug, evaluation at the failing input): a null header cell
resolves to `None` and a blank one normalizes to the empty string, but the
resolver does NOT return `None` on a blank label: because Python's
`"" in s` is always true, the substring tier returns the table's first
entry, so empty and whitespace-only labels resolve to `序号`. -/
theorem C5_blank_label_evaluation :
    pyStrip "   " = "" ∧ pyLower (pyStrip "") = "" ∧
    auto_map_header none = none ∧
    auto_map_header (some "") = some "序号" ∧
    auto_map_header (some "   ") = some "序号" := by
  refine ⟨by decide, by decide, rfl, by decide, by decide⟩

lemma bestScore_stepBest_le (b : Option Cand) (c : Cand) :
    bestScore b ≤ bestScore (stepBest b c) := by
  unfold stepBest
  split
  · exact le_of_lt (by assumption)
  · exact le_refl _

lemma score_le_bestScore_stepBest (b : Option Cand) (c : Cand) :
    score c ≤ bestScore (stepBest b c) := by
  unfold stepBest
  split
  · exact le_refl _
  · exact le_of_not_lt (by assumption)

/-- What `foldl stepBest` computes: either the accumulator survives and
bounds every element, or the result is the first element of the list that
strictly exceeded everything before it (and is never exceeded after). -/
lemma foldl_stepBest_spec : ∀ (l : List Cand) (acc : Option Cand) (r : Cand),
    l.foldl stepBest acc = some r →
    (acc = some r ∧ ∀ c ∈ l, score c ≤ score r) ∨
    (∃ l1 l2, l = l1 ++ r :: l2 ∧ bestScore acc < score r ∧
      (∀ c ∈ l1, score c < score r) ∧ (∀ c ∈ l2, score c ≤ score r)) := by
  intro l
  induction l with
  | nil => intro acc r h; exact Or.inl ⟨h, by simp⟩
  | cons c t ih =>
    intro acc r h
    rw [List.foldl_cons] at h
    rcases ih (stepBest acc c) r h with ⟨hacc', hall⟩ | ⟨t1, t2, hdec, hgt, h1, h2⟩
    · by_cases hlt : bestScore acc < score c
      · have hc : c = r := by
          have : stepBest acc c = some c := by unfold stepBest; rw [if_pos hlt]
          rw [this] at hacc'
          exact Option.some.inj hacc'
        subst hc
        exact Or.inr ⟨[], t, by simp, hlt, by simp, hall⟩
      · have hacc : acc = some r := by
          have : stepBest acc c = acc := by unfold stepBest; rw [if_neg hlt]
          rw [this] at hacc'
          exact hacc'
        refine Or.inl ⟨hacc, ?_⟩
        intro x hx
        rcases List.mem_cons.mp hx with rfl | hxt
        · have : score x ≤ bestScore acc := le_of_not_lt hlt
          rw [hacc] at this
          exact this
        · exact hall x hxt
    · refine Or.inr ⟨c :: t1, t2, by rw [hdec]; rfl, ?_, ?_, h2⟩
      · exact lt_of_le_of_lt (bestScore_stepBest_le acc c) hgt
      · intro x hx
        rcases List.mem_cons.mp hx with rfl | hxt
        · exact lt_of_le_of_lt (score_le_bestScore_stepBest acc x) hgt
        · exact h1 x hxt

/-- An empty grid yields no candidates, hence no best candidate. -/
lemma bestCand_none_of_rows_zero (g : Grid) (maxH maxS : Nat)
    (h : gridRows g = 0) : bestCand g maxH maxS = none := by
  unfold bestCand candList candPairs
  rw [h]
  simp

lemma score_nonneg (c : Cand) : 0 ≤ score c := by
  unfold score
  positivity

/-- Evaluating the scan on a one-candidate list: the single candidate
always beats the initial `-1`. -/
lemma bestCand_singleton (g : Grid) (maxH maxS : Nat) (c : Cand)
    (h : candList g maxH maxS = [c]) : bestCand g maxH maxS = some c := by
  rw [bestCand, h, List.foldl_cons, List.foldl_nil]
  unfold stepBest
  rw [if_pos]
  have h0 := score_nonneg c
  have hm1 : bestScore none = -1 := rfl
  rw [hm1]
  linarith

/-- The best candidate is the first-seen maximum of the candidate list. -/
lemma bestCand_spec (g : Grid) (maxH maxS : Nat) (b : Cand)
    (hb : bestCand g maxH maxS = some b) :
    ∃ l1 l2, candList g maxH maxS = l1 ++ b :: l2 ∧
      (∀ c ∈ l1, score c < score b) ∧ (∀ c ∈ l2, score c ≤ score b) := by
  rcases foldl_stepBest_spec (candList g maxH maxS) none b hb with ⟨h, _⟩ | ⟨l1, l2, h⟩
  · exact absurd h (by simp)
  · exact ⟨l1, l2, h.1, h.2.2.1, h.2.2.2⟩

/-- C3: header detection accepts the best candidate exactly when
`resolved_count >= 2` or (`nonempty_count > 0` and
`resolved_count / nonempty_count >= 0.3`), and otherwise returns
`(None, None)`; a best candidate with `resolved_count = 0` is always
rejected whatever its `nonempty_count`, and an empty grid always yields
`(None, None)`. -/
theorem C3_acceptance_gate :
    (∀ maxH maxS, detect_header_from_preview [] maxH maxS = none) ∧
    (∀ g maxH maxS b, bestCand g maxH maxS = some b →
      (detect_header_from_preview g maxH maxS ≠ none ↔
        (2 ≤ b.mapped ∨
          (0 < b.nonempty ∧ (3 / 10 : ℚ) ≤ (b.mapped : ℚ) / (b.nonempty : ℚ))))) ∧
    (∀ g maxH maxS b, bestCand g maxH maxS = some b → b.mapped = 0 →
      detect_header_from_preview g maxH maxS = none) := by
  refine ⟨?_, ?_, ?_⟩
  · intro maxH maxS; rfl
  · intro g maxH maxS b hb
    have hrows : ¬ gridRows g = 0 := by
      intro h0
      rw [bestCand_none_of_rows_zero g maxH maxS h0] at hb
      exact Option.noConfusion hb
    simp only [detect_header_from_preview, hb, if_neg hrows]
    by_cases hgate : acceptGate b
    · rw [if_pos hgate]
      exact iff_of_true (by simp) hgate
    · rw [if_neg hgate]
      exact iff_of_false (by simp) hgate
  · intro g maxH maxS b hb hm
    have hgate : ¬ acceptGate b := by
      simp only [acceptGate, hm]
      rintro (h | ⟨hn, hr⟩)
      · exact absurd h (by norm_num)
      · rw [Nat.cast_zero, zero_div] at hr
        norm_num at hr
    by_cases hrows : gridRows g = 0
    · simp only [detect_header_from_preview, if_pos hrows]
    · simp only [detect_header_from_preview, hb, if_neg hrows, if_neg hgate]

/-- Witness for C3 at a concrete grid: the single-cell grid `[["title"]]`
has best candidate with `resolved_count = 0`, `nonempty_count = 1`
(ratio `0`), and is rejected. -/
theorem C3_acceptance_gate_witness :
    detect_header_from_preview [[some "title"]] 2 8 = none :=
  C3_acceptance_gate.2.2 [[some "title"]] 2 8 ⟨["title"], 0, 1, 0, 1⟩
    (bestCand_singleton [[some "title"]] 2 8 ⟨["title"], 0, 1, 0, 1⟩ (by decide)) rfl

/-- C7: every candidate span is scored `resolved_count + 0.5 *
nonempty_count`; the kept best is the first candidate in loop order whose
score all earlier candidates are strictly below and no later candidate
exceeds (first-seen wins ties); and on acceptance the detector returns the
best candidate's labels with the absolute index of the last row of its
span. -/
theorem C7_best_tracking :
    ∀ g maxH maxS b, bestCand g maxH maxS = some b →
      ((∃ l1 l2, candList g maxH maxS = l1 ++ b :: l2 ∧
          (∀ c ∈ l1, score c < score b) ∧ (∀ c ∈ l2, score c ≤ score b)) ∧
       (∀ c ∈ candList g maxH maxS, score c ≤ score b) ∧
       score b = (b.mapped : ℚ) + (1 / 2 : ℚ) * (b.nonempty : ℚ) ∧
       (detect_header_from_preview g maxH maxS = none ∨
        detect_header_from_preview g maxH maxS =
          some (b.header, b.row + b.rowsUsed - 1))) := by
  intro g maxH maxS b hb
  obtain ⟨l1, l2, hdec, h1, h2⟩ := bestCand_spec g maxH maxS b hb
  refine ⟨⟨l1, l2, hdec, h1, h2⟩, ?_, rfl, ?_⟩
  · intro c hc
    rw [hdec] at hc
    rcases List.mem_append.mp hc with hcl | hcr
    · exact le_of_lt (h1 c hcl)
    · rcases List.mem_cons.mp hcr with rfl | hcr'
      · exact le_refl _
      · exact h2 c hcr'
  · by_cases hrows : gridRows g = 0
    · exact Or.inl (by simp only [detect_header_from_preview, if_pos hrows])
    · simp only [detect_header_from_preview, hb, if_neg hrows]
      by_cases hgate : acceptGate b
      · rw [if_pos hgate]; exact Or.inr rfl
      · rw [if_neg hgate]; exact Or.inl rfl

/-- Witness for C7 at a concrete grid: the header row `["name","qty"]`
is the accepted best candidate, and the detector returns its labels with
header-end row index 0. -/
theorem C7_best_tracking_witness :
    detect_header_from_preview [[some "name", some "qty"]] 2 8 = none ∨
    detect_header_from_preview [[some "name", some "qty"]] 2 8 =
      some (["name", "qty"], 0) :=
  (C7_best_tracking [[some "name", some "qty"]] 2 8
    ⟨["name", "qty"], 0, 1, 2, 2⟩
    (bestCand_singleton [[some "name", some "qty"]] 2 8
      ⟨["name", "qty"], 0, 1, 2, 2⟩ (by decide))).2.2.2

lemma getCol_setCol_ne (r : RowV) (c c' : String) (v : Cell)
    (h : DB_COLUMNS.indexOf c ≠ DB_COLUMNS.indexOf c') :
    getCol (setCol r c v) c' = getCol r c' := by
  unfold getCol setCol
  rw [List.get?_set_ne _ _ h]

lemma getCol_setCol_self (r : RowV) (c : String) (v : Cell)
    (h : DB_COLUMNS.indexOf c < r.length) :
    getCol (setCol r c v) c = v := by
  unfold getCol setCol
  rw [List.get?_set_eq_of_lt _ h]
  rfl

/-- C4: a staged row passes validation exactly when the six non-price
required fields (project, supplier, enquirer, item name, currency,
enquiry date) all normalize to a value AND at least one of unit price /
labor unit price does; and the brand cell never influences the outcome
(an empty brand alone can never reject a row). -/
theorem C4_row_validation (r : RowV) :
    (rowAccepted r = true ↔
      ((∀ c ∈ required_nonprice, normalize_cell (getCol r c) ≠ none) ∧
       (normalize_cell (getCol r "设备单价") ≠ none ∨
        normalize_cell (getCol r "人工包干单价") ≠ none))) ∧
    (∀ v, rowAccepted (setCol r "品牌" v) = rowAccepted r) := by
  constructor
  · simp only [rowAccepted, rowInvalid, missing_nonprice, price_has_value]
    simp [List.any_eq_true, Option.isNone_iff_eq_none, Option.isSome_iff_ne_none]
  · intro v
    have h1 := getCol_setCol_ne r "品牌" "项目名称" v (by decide)
    have h2 := getCol_setCol_ne r "品牌" "供应商名称" v (by decide)
    have h3 := getCol_setCol_ne r "品牌" "询价人" v (by decide)
    have h4 := getCol_setCol_ne r "品牌" "设备材料名称" v (by decide)
    have h5 := getCol_setCol_ne r "品牌" "币种" v (by decide)
    have h6 := getCol_setCol_ne r "品牌" "询价日期" v (by decide)
    have h7 := getCol_setCol_ne r "品牌" "设备单价" v (by decide)
    have h8 := getCol_setCol_ne r "品牌" "人工包干单价" v (by decide)
    simp only [rowAccepted, rowInvalid, missing_nonprice, price_has_value,
      required_nonprice, List.any_cons, List.any_nil, h1, h2, h3, h4, h5, h6, h7, h8]

/-- A cell that was just filled with a non-empty value is no longer empty,
so re-filling leaves the row unchanged. -/
lemma fillCell_idem (c v : String) (hv : is_empty_cell (some v) = false)
    (r : RowV) : fillCell c v (fillCell c v r) = fillCell c v r := by
  by_cases he : is_empty_cell (getCol r c) = true
  · have hfirst : fillCell c v r = setCol r c (some v) := by
      unfold fillCell
      rw [if_pos he]
    by_cases hlen : DB_COLUMNS.indexOf c < r.length
    · have hget : getCol (setCol r c (some v)) c = some v :=
        getCol_setCol_self r c (some v) hlen
      rw [hfirst]
      unfold fillCell
      rw [if_neg (by rw [hget, hv]; simp)]
    · have hnoop : setCol r c (some v) = r :=
        List.set_eq_of_length_le (le_of_not_lt hlen)
      rw [hfirst, hnoop, hfirst, hnoop]
  · have hr : fillCell c v r = r := by
      unfold fillCell
      rw [if_neg he]
    rw [hr, hr]

/-- C6: global-fallback filling writes the value only into empty cells —
a non-empty cell, and every cell of any other column, is left untouched —
and applying the same non-empty fallback twice equals applying it once. -/
theorem C6_fallback_fill (rows : List RowV) (c v : String)
    (hv : is_empty_cell (some v) = false) :
    fill_empty (fill_empty rows c v) c v = fill_empty rows c v ∧
    (∀ r ∈ rows, is_empty_cell (getCol r c) = false → fillCell c v r = r) ∧
    (∀ r ∈ rows, ∀ i, i ≠ DB_COLUMNS.indexOf c →
      (fillCell c v r).get? i = r.get? i) := by
  refine ⟨?_, ?_, ?_⟩
  · unfold fill_empty
    rw [List.map_map]
    exact List.map_congr_left (fun r _ => fillCell_idem c v hv r)
  · intro r _ h
    unfold fillCell
    rw [if_neg (by rw [h]; simp)]
  · intro r _ i hi
    unfold fillCell
    by_cases he : is_empty_cell (getCol r c) = true
    · rw [if_pos he]
      unfold setCol
      exact List.get?_set_ne _ _ (fun h => hi h.symm)
    · rw [if_neg he]

/-- Witness for C6 at a concrete batch: filling an all-empty row's
currency with `"USD"` twice equals filling it once. -/
theorem C6_fallback_fill_witness :
    fill_empty (fill_empty [List.replicate 24 (none : Cell)] "币种" "USD") "币种" "USD" =
      fill_empty [List.replicate 24 (none : Cell)] "币种" "USD" :=
  (C6_fallback_fill [List.replicate 24 (none : Cell)] "币种" "USD" (by decide)).1

lemma mem_dropDupAux {α : Type} [DecidableEq α] :
    ∀ (l seen : List α) (x : α), x ∈ dropDupAux l seen ↔ (x ∈ l ∧ x ∉ seen) := by
  intro l
  induction l with
  | nil => intro seen x; simp [dropDupAux]
  | cons y ys ih =>
    intro seen x
    unfold dropDupAux
    by_cases hy : seen.contains y = true
    · rw [if_pos hy, ih seen x]
      constructor
      · rintro ⟨hx, hs⟩
        exact ⟨List.mem_cons_of_mem _ hx, hs⟩
      · rintro ⟨hx, hs⟩
        rcases List.mem_cons.mp hx with rfl | hx'
        · exact absurd (List.mem_of_elem_eq_true hy) hs
        · exact ⟨hx', hs⟩
    · rw [if_neg hy]
      constructor
      · intro hx
        rcases List.mem_cons.mp hx with rfl | hx'
        · exact ⟨List.mem_cons_self _ _,
            fun hs => hy (List.elem_eq_true_of_mem hs)⟩
        · have h2 := (ih (y :: seen) x).mp hx'
          exact ⟨List.mem_cons_of_mem _ h2.1,
            fun hs => h2.2 (List.mem_cons_of_mem _ hs)⟩
      · rintro ⟨hx, hs⟩
        rcases List.mem_cons.mp hx with rfl | hx'
        · exact List.mem_cons_self _ _
        · by_cases hxy : x = y
          · subst hxy; exact List.mem_cons_self _ _
          · refine List.mem_cons_of_mem _ ((ih (y :: seen) x).mpr ⟨hx', ?_⟩)
            exact fun hmem => (List.mem_cons.mp hmem).elim hxy hs

lemma nodup_dropDupAux {α : Type} [DecidableEq α] :
    ∀ (l seen : List α), (dropDupAux l seen).Nodup := by
  intro l
  induction l with
  | nil => intro seen; simp [dropDupAux]
  | cons y ys ih =>
    intro seen
    unfold dropDupAux
    by_cases hy : seen.contains y = true
    · rw [if_pos hy]; exact ih seen
    · rw [if_neg hy]
      refine List.nodup_cons.mpr ⟨?_, ih (y :: seen)⟩
      intro hmem
      exact ((mem_dropDupAux ys (y :: seen) y).mp hmem).2 (List.mem_cons_self _ _)

lemma mem_dropDupFirst {α : Type} [DecidableEq α] (l : List α) (x : α) :
    x ∈ dropDupFirst l ↔ x ∈ l := by
  unfold dropDupFirst
  rw [mem_dropDupAux]
  simp

lemma nodup_dropDupFirst {α : Type} [DecidableEq α] (l : List α) :
    (dropDupFirst l).Nodup := nodup_dropDupAux l []

lemma normalize_ne_none_of_cell (x : Cell) (h : normalize_cell x ≠ none) : x ≠ none := by
  intro hx
  subst hx
  exact h rfl

/-- A row that passes validation also passes the commit step's final
check (its item name and a price field normalize to values). -/
lemma finalOk_of_accepted (r : RowV) (h : rowAccepted r = true) :
    finalOkRow r = true := by
  simp only [rowAccepted, rowInvalid, Bool.not_eq_true', Bool.or_eq_false_iff] at h
  obtain ⟨hmiss, hprice⟩ := h
  unfold missing_nonprice at hmiss
  rw [List.any_eq_false] at hmiss
  have hname := hmiss "设备材料名称" (by decide)
  unfold finalOkRow
  rw [Bool.and_eq_true]
  constructor
  · rw [Option.isSome_iff_ne_none]
    simpa using hname
  · simpa using hprice

/-- A row that passes validation has a non-null item-name cell, so it is
not fully empty. -/
lemma not_fullyEmpty_of_accepted (r : RowV) (h : rowAccepted r = true) :
    isFullyEmptyRow r = false := by
  simp only [rowAccepted, rowInvalid, Bool.not_eq_true', Bool.or_eq_false_iff] at h
  obtain ⟨hmiss, _⟩ := h
  unfold missing_nonprice at hmiss
  rw [List.any_eq_false] at hmiss
  have hname := hmiss "设备材料名称" (by decide)
  have hcol : getCol r "设备材料名称" ≠ none := by
    refine normalize_ne_none_of_cell _ ?_
    simpa [Option.isNone_iff_eq_none] using hname
  rw [Bool.eq_false_iff]
  intro hall
  unfold isFullyEmptyRow at hall
  rw [List.all_eq_true] at hall
  unfold getCol at hcol
  rcases hy : r.get? (DB_COLUMNS.indexOf "设备材料名称") with _ | y
  · rw [hy] at hcol; simp at hcol
  · rw [hy] at hcol
    simp only [Option.getD_some] at hcol
    have hmem : y ∈ r := List.get?_mem hy
    have := hall y hmem
    rw [Option.isNone_iff_eq_none] at this
    exact hcol this

/-- C8: on a validated batch the commit step drops fully-empty rows,
collapses exact duplicates keeping the first occurrence, and appends the
result to the store in one operation; the appended set has no duplicate
rows, and two fully-identical accepted rows yield exactly one stored
row. -/
theorem C8_commit_dedup :
    (∀ (store rows : List RowV), (∀ r ∈ rows, rowAccepted r = true) →
      importBatch store rows =
        store ++ dropDupFirst (rows.filter (fun r => !isFullyEmptyRow r)) ∧
      (dropDupFirst (rows.filter (fun r => !isFullyEmptyRow r))).Nodup) ∧
    (∀ (store : List RowV) (r : RowV), rowAccepted r = true →
      importBatch store [r, r] = store ++ [r]) := by
  constructor
  · intro store rows hacc
    refine ⟨?_, nodup_dropDupFirst _⟩
    by_cases hnil : rows = []
    · subst hnil
      simp [importBatch, dropDupFirst, dropDupAux]
    · have hne : rows.isEmpty = false := by simpa [List.isEmpty_iff] using hnil
      have hbad : (dropDupFirst (rows.filter (fun r => !isFullyEmptyRow r))).filter
          (fun r => !finalOkRow r) = [] := by
        rw [List.filter_eq_nil_iff]
        intro a ha
        have ha2 := (mem_dropDupFirst _ a).mp ha
        have ha3 := (List.mem_filter.mp ha2).1
        rw [finalOk_of_accepted a (hacc a ha3)]
        simp
      simp only [importBatch, hne, Bool.false_eq_true, if_false]
      rw [hbad]
      simp
  · intro store r h
    have hfe := not_fullyEmpty_of_accepted r h
    have hfo := finalOk_of_accepted r h
    simp only [importBatch, List.isEmpty_cons, if_false, Bool.false_eq_true]
    rw [show ([r, r].filter (fun x => !isFullyEmptyRow x)) = [r, r] by simp [hfe]]
    rw [show dropDupFirst [r, r] = [r] by
      simp [dropDupFirst, dropDupAux, List.contains_cons]]
    rw [show ([r].filter (fun x => !finalOkRow x)) = [] by simp [hfo]]
    simp

/-- An example accepted row (item name, unit price, and the six required
fields present; everything else null), in `DB_COLUMNS` order. -/
def exAcceptedRow : RowV :=
  [none, some "cable", none, none, none, none, none, none, none, some "10",
   none, none, none, none, some "USD", none, none, none, some "E", some "P",
   some "S", some "2024-01-01", some "alice", some "SG"]

/-- Witness for C8 at a concrete batch: the same accepted row submitted
twice in one import is stored once. -/
theorem C8_commit_dedup_witness :
    importBatch [] [exAcceptedRow, exAcceptedRow] = [] ++ [exAcceptedRow] :=
  C8_commit_dedup.2 [] exAcceptedRow (by decide)

/-- An example rejected row: only the item name is present, so the other
required fields and the price rule fail. -/
def exBadRow : RowV :=
  [none, some "cable", none, none, none, none, none, none, none, none,
   none, none, none, none, none, none, none, none, none, none,
   none, none, none, none]

/-- C9 (corrected): the validation step partitions the staged rows into
accepted and rejected by the row predicate alone; every rejected row is
returned verbatim in the rejected output — recoverable and exportable —
and nothing else: the output carries no per-row failing-field list. -/
theorem C9_rejected_rows_recoverable (rows : List RowV) :
    (∀ r ∈ rows, rowAccepted r = false → r ∈ (validPartition rows).2) ∧
    (∀ r ∈ (validPartition rows).2, r ∈ rows ∧ rowAccepted r = false) ∧
    (validPartition rows).1.length + (validPartition rows).2.length =
      rows.length := by
  refine ⟨?_, ?_, ?_⟩
  · intro r hr hrej
    exact List.mem_filter.mpr ⟨hr, by simp [hrej]⟩
  · intro r hr
    have h2 := List.mem_filter.mp hr
    exact ⟨h2.1, by simpa using h2.2⟩
  · unfold validPartition
    induction rows with
    | nil => rfl
    | cons a t ih =>
      simp only at ih ⊢
      cases h : rowAccepted a <;> simp [List.filter_cons, h] <;> omega

/-- Witness for C9's amended statement at a concrete batch: the rejected
row is returned in the rejected output. -/
theorem C9_rejected_rows_recoverable_witness :
    exBadRow ∈ (validPartition [exBadRow]).2 :=
  (C9_rejected_rows_recoverable [exBadRow]).1 exBadRow (by decide) (by decide)

/-- C9 counterexample: the claim says every rejected row carries the list
of its unmet constraints; on the code the rejected output for this row —
which fails currency, project, supplier, enquirer, date and the price
rule — is exactly the bare row itself, with no failing-field annotation
attached (only a batch-level count is shown to the user). -/
theorem C9_rejection_detail_counterexample :
    rowAccepted exBadRow = false ∧
    (validPartition [exBadRow]).2 = [exBadRow] := by
  exact ⟨by decide, by decide⟩

lemma getCol_stagedRowI_user (cols : SourceTable) (choices : Choices)
    (u reg : String) (i : Nat) :
    getCol (stagedRowI cols choices u reg i) "录入人" = some u := by
  unfold stagedRowI getCol
  rw [List.get?_map]
  rw [show DB_COLUMNS.get? (DB_COLUMNS.indexOf "录入人") = some "录入人" from by decide]
  rfl

lemma getCol_stagedRowI_region (cols : SourceTable) (choices : Choices)
    (u reg : String) (i : Nat) :
    getCol (stagedRowI cols choices u reg i) "地区" = some reg := by
  unfold stagedRowI getCol
  rw [List.get?_map]
  rw [show DB_COLUMNS.get? (DB_COLUMNS.indexOf "地区") = some "地区" from by decide]
  rfl

/-- Filling a global column never touches the identity or region cells:
the five fillable columns all live at indices different from theirs. -/
lemma fillCell_keeps_identity (c : String)
    (hc : c ∈ ["项目名称", "供应商名称", "询价人", "询价日期", "币种"])
    (v : String) (r : RowV) :
    getCol (fillCell c v r) "录入人" = getCol r "录入人" ∧
    getCol (fillCell c v r) "地区" = getCol r "地区" := by
  have hcs : c = "项目名称" ∨ c = "供应商名称" ∨ c = "询价人" ∨
      c = "询价日期" ∨ c = "币种" := by simpa using hc
  have hne1 : DB_COLUMNS.indexOf c ≠ DB_COLUMNS.indexOf "录入人" := by
    rcases hcs with rfl | rfl | rfl | rfl | rfl <;> decide
  have hne2 : DB_COLUMNS.indexOf c ≠ DB_COLUMNS.indexOf "地区" := by
    rcases hcs with rfl | rfl | rfl | rfl | rfl <;> decide
  unfold fillCell
  by_cases he : is_empty_cell (getCol r c) = true
  · rw [if_pos he]
    exact ⟨getCol_setCol_ne r c "录入人" (some v) hne1,
      getCol_setCol_ne r c "地区" (some v) hne2⟩
  · rw [if_neg he]
    exact ⟨rfl, rfl⟩

lemma globalPairs_cols (needCur : Bool) (p s e d cur : String) :
    ∀ q ∈ globalPairs needCur p s e d cur,
      q.1 ∈ ["项目名称", "供应商名称", "询价人", "询价日期", "币种"] := by
  intro q hq
  unfold globalPairs at hq
  rcases List.mem_append.mp hq with h | h
  · simp only [List.mem_cons, List.mem_singleton, List.not_mem_nil] at h
    rcases h with rfl | rfl | rfl | rfl | h
    · simp
    · simp
    · simp
    · simp
    · exact absurd h (by simp)
  · by_cases hcond : (needCur && cur != "") = true
    · rw [if_pos hcond] at h
      rw [List.mem_singleton] at h
      subst h
      simp
    · rw [if_neg hcond] at h
      exact absurd h (by simp)

/-- Every row coming out of the global-fill chain descends from a staged
row with the same identity and region cells. -/
lemma foldl_fill_keeps_identity :
    ∀ (pairs : List (String × String)),
      (∀ q ∈ pairs, q.1 ∈ ["项目名称", "供应商名称", "询价人", "询价日期", "币种"]) →
      ∀ (rows : List RowV) (r' : RowV),
        r' ∈ pairs.foldl (fun rs q => fill_empty rs q.1 q.2) rows →
        ∃ r ∈ rows, getCol r' "录入人" = getCol r "录入人" ∧
          getCol r' "地区" = getCol r "地区" := by
  intro pairs
  induction pairs with
  | nil => intro _ rows r' h; exact ⟨r', h, rfl, rfl⟩
  | cons q qs ih =>
    intro hall rows r' h
    rw [List.foldl_cons] at h
    obtain ⟨r1, hr1, e1, e2⟩ :=
      ih (fun x hx => hall x (List.mem_cons_of_mem _ hx)) (fill_empty rows q.1 q.2) r' h
    obtain ⟨r0, hr0, rfl⟩ := List.mem_map.mp hr1
    have hk := fillCell_keeps_identity q.1 (hall q (List.mem_cons_self _ _)) q.2 r0
    exact ⟨r0, hr0, by rw [e1, hk.1], by rw [e2, hk.2]⟩

/-- A committed row is a stored row or one of the submitted rows: the
commit step only filters and deduplicates before appending. -/
lemma importBatch_mem (store rows : List RowV) (r : RowV)
    (h : r ∈ importBatch store rows) : r ∈ store ∨ r ∈ rows := by
  have hsub : ∀ x, x ∈ dropDupFirst (rows.filter (fun y => !isFullyEmptyRow y)) →
      x ∈ rows := fun x hx =>
    (List.mem_filter.mp ((mem_dropDupFirst _ x).mp hx)).1
  by_cases hempty : rows.isEmpty = true
  · rw [importBatch, if_pos hempty] at h
    exact Or.inl h
  · simp only [importBatch, hempty, Bool.false_eq_true, if_false] at h
    split at h
    · rcases List.mem_append.mp h with h1 | h1
      · exact Or.inl h1
      · exact Or.inr (hsub r h1)
    · rcases List.mem_append.mp h with h1 | h1
      · exact Or.inl h1
      · exact Or.inr (hsub r (List.mem_of_mem_filter h1))

/-- C10: the identity and region fields are excluded from the
user-selectable mapping targets, the auto-suggested default never points
at them, every staged row carries the calling user's username and region,
and every row the commit step appends (after global filling) still does —
these two fields can never be sourced from a file column. -/
theorem C10_identity_injection :
    ("录入人" ∉ mapping_targets ∧ "地区" ∉ mapping_targets) ∧
    (∀ l, autoDefault l ≠ "录入人" ∧ autoDefault l ≠ "地区") ∧
    (∀ cols choices u reg n r, r ∈ stagedTable cols choices u reg n →
      getCol r "录入人" = some u ∧ getCol r "地区" = some reg) ∧
    (∀ needCur p s e d cur cols choices u reg n store r,
      r ∈ importBatch store
        (applyGlobals needCur p s e d cur (stagedTable cols choices u reg n)) →
      r ∈ store ∨ (getCol r "录入人" = some u ∧ getCol r "地区" = some reg)) := by
  refine ⟨⟨by decide, by decide⟩, ?_, ?_, ?_⟩
  · intro l
    rcases hm : auto_map_header (some l) with _ | v
    · simp only [autoDefault, hm]
      exact ⟨by decide, by decide⟩
    · simp only [autoDefault, hm]
      by_cases hv : mapping_targets.contains v = true
      · rw [if_pos hv]
        have hvmem : v ∈ mapping_targets := List.mem_of_elem_eq_true hv
        constructor
        · rintro rfl
          exact absurd hvmem (by decide)
        · rintro rfl
          exact absurd hvmem (by decide)
      · rw [if_neg hv]
        exact ⟨by decide, by decide⟩
  · intro cols choices u reg n r hr
    obtain ⟨i, _, rfl⟩ := List.mem_map.mp hr
    exact ⟨getCol_stagedRowI_user cols choices u reg i,
      getCol_stagedRowI_region cols choices u reg i⟩
  · intro needCur p s e d cur cols choices u reg n store r hr
    rcases importBatch_mem _ _ _ hr with h | h
    · exact Or.inl h
    · obtain ⟨r0, hr0, e1, e2⟩ := foldl_fill_keeps_identity _
        (globalPairs_cols needCur p s e d cur) _ r h
      obtain ⟨i, _, rfl⟩ := List.mem_map.mp hr0
      refine Or.inr ⟨?_, ?_⟩
      · rw [e1, getCol_stagedRowI_user]
      · rw [e2, getCol_stagedRowI_region]

/-- An example uploaded sheet for the witnesses: two source columns with
one data row. -/
def exCols : SourceTable := [("name", [some "cable"]), ("price", [some "5"])]

/-- A conflict-free confirmed mapping for `exCols`. -/
def exChoices : Choices := [("name", "设备材料名称"), ("price", "设备单价")]

/-- The row `exCols`/`exChoices` stages for user `alice` in region `SG`,
after global filling with project/supplier/enquirer/date/currency. -/
def exFinalRow : RowV :=
  [none, some "cable", none, none, none, none, none, none, none, some "5",
   none, none, none, none, some "USD", none, none, none, some "E", some "P",
   some "S", some "2024-01-01", some "alice", some "SG"]

/-- Witness for C10 at a concrete import: the committed row carries the
caller's username and region. -/
theorem C10_identity_injection_witness :
    exFinalRow ∈ ([] : List RowV) ∨
    (getCol exFinalRow "录入人" = some "alice" ∧
     getCol exFinalRow "地区" = some "SG") :=
  C10_identity_injection.2.2.2 true "P" "S" "E" "2024-01-01" "USD"
    exCols exChoices "alice" "SG" 1 [] exFinalRow (by decide)

/-- C1 counterexample: a confirmed mapping assigning two source labels to
the one canonical field `品牌` is NOT a hard failure on the code — the
submit handler records the conflicting group in `target_sources` but has
no blocking branch, and a staged-row set is still produced, the first
assigned source column supplying the field's values. -/
theorem C1_duplicate_target_counterexample :
    dupTargets [("colA", "品牌"), ("colB", "品牌")] = [("品牌", ["colA", "colB"])] ∧
    stagedTable [("colA", [some "X"]), ("colB", [some "Y"])]
        [("colA", "品牌"), ("colB", "品牌")] "u" "SG" 1 =
      [[none, none, none, none, some "X", none, none, none, none, none, none,
        none, none, none, none, none, none, none, none, none, none, none,
        some "u", some "SG"]] :=
  ⟨by decide, by decide⟩

/-- C1 (corrected): mapping confirmation never blocks on duplicate target
assignment — whatever the choices, the staged-row set is produced with one
row per data row; the duplicate groups are computable from the recorded
`target_sources` (each offending field listed with all its source labels),
but the code raises no error for them. -/
theorem C1_mapping_conflict_not_blocking
    (cols : SourceTable) (choices : Choices) (u reg : String) (n : Nat)
    (_hdup : dupTargets choices ≠ []) :
    (stagedTable cols choices u reg n).length = n ∧
    (∀ t srcs, (t, srcs) ∈ dupTargets choices → 2 ≤ srcs.length) := by
  constructor
  · unfold stagedTable
    rw [List.length_map, List.length_range]
  · intro t srcs hmem
    have := (List.mem_filter.mp hmem).2
    simpa using this

/-- Witness for C1's corrected statement at the concrete duplicate
mapping: the staged-row set still has its one row. -/
theorem C1_mapping_conflict_not_blocking_witness :
    (stagedTable [("colA", [some "X"]), ("colB", [some "Y"])]
        [("colA", "品牌"), ("colB", "品牌")] "u" "SG" 1).length = 1 :=
  (C1_mapping_conflict_not_blocking
    [("colA", [some "X"]), ("colB", [some "Y"])]
    [("colA", "品牌"), ("colB", "品牌")] "u" "SG" 1 (by decide)).1

/-- Witness for C4 at a concrete row: the six required fields and the
unit price are present, so the characterization accepts the row (and its
empty brand is irrelevant). -/
theorem C4_row_validation_witness :
    rowAccepted exAcceptedRow = true :=
  (C4_row_validation exAcceptedRow).1.mpr ⟨by decide, by decide⟩
